import Mathlib

/-!
Shallow embedding of the versioned crate (src/lib.rs): the pointer-like
wrapper Versioned<T> = (T, Version) that counts mutable accesses to the
contained value.  Version is usize; on a 64-bit target usize arithmetic
overflow in the increment of as_mut_impl is a panic (the test
panic_on_version_overflow documents this), modelled here by Option.
-/

namespace VersionedCrate

/-- Width of usize on the 64-bit target. -/
def USIZE_BITS : Nat := 64

/-- Maximum representable Version value (usize MAX). -/
def USIZE_MAX : Nat := 2 ^ USIZE_BITS - 1

/-- Checked usize addition: none models the arithmetic-overflow panic of
the += operator in as_mut_impl (lib.rs line 165). -/
def usizeCheckedAdd (a b : Nat) : Option Nat :=
  if a + b ≤ USIZE_MAX then some (a + b) else none

/-- Source line 65: pub const INITIAL_VERSION: Version = 0. -/
def INITIAL_VERSION : Nat := 0

/-- Source line 71: pub struct Versioned<T>(T, Version).  Field value is
the tuple component 0, field version is component 1; the generated
accessor Versioned.version coincides with the version() method of the
source (line 152-154), which returns self.1 unchanged. -/
structure Versioned (T : Type) where
  value : T
  version : Nat
deriving DecidableEq

namespace Versioned

variable {T : Type}

/-- Source lines 147-149: with_version(value, version) constructs the
wrapper with the given version. -/
def with_version (value : T) (version : Nat) : Versioned T :=
  ⟨value, version⟩

/-- Source lines 141-143: new(value) delegates to with_version with
INITIAL_VERSION. -/
def new (value : T) : Versioned T :=
  with_version value INITIAL_VERSION

/-- Source lines 160-162: as_ref_impl takes a shared borrow and returns
a reference to self.0; the shared borrow cannot change the cell, so the
resulting state component is the cell itself. -/
def as_ref_impl (c : Versioned T) : T × Versioned T :=
  (c.value, c)

/-- Source lines 164-168: as_mut_impl does self.1 += 1 then returns a
mutable borrow of self.0.  The returned borrow initially denotes the
unchanged self.0; none is the overflow panic of the increment. -/
def as_mut_impl (c : Versioned T) : Option (T × Versioned T) :=
  match usizeCheckedAdd c.version 1 with
  | some v => some (c.value, ⟨c.value, v⟩)
  | none => none

/-- Source lines 105-107: Deref::deref delegates to as_ref_impl. -/
def deref (c : Versioned T) : T × Versioned T :=
  as_ref_impl c

/-- Source lines 113-115: DerefMut::deref_mut delegates to as_mut_impl. -/
def deref_mut (c : Versioned T) : Option (T × Versioned T) :=
  as_mut_impl c

/-- Source lines 121-123: AsRef::as_ref delegates to as_ref_impl. -/
def as_ref (c : Versioned T) : T × Versioned T :=
  as_ref_impl c

/-- Source lines 129-131: AsMut::as_mut delegates to as_mut_impl. -/
def as_mut (c : Versioned T) : Option (T × Versioned T) :=
  as_mut_impl c

/-- Source lines 84-92: Clone for Versioned<T> is Self::new(self.0.clone());
cloneT stands for the Clone implementation of T. -/
def clone (cloneT : T → T) (c : Versioned T) : Versioned T :=
  new (cloneT c.value)

/-- Source lines 94-98: Copy for Versioned<T> is the empty marker impl;
a Rust copy is a bitwise duplicate of the whole struct, both fields
included. -/
def copy (c : Versioned T) : Versioned T :=
  c

/-- Source lines 79-81: Default for Versioned<T> is Self::new(T::default());
dflt stands for the default value of T. -/
def defaultCell (dflt : T) : Versioned T :=
  new dflt

/-- Source lines 177-179: default_with_version(version) is
Self::with_version(T::default(), version). -/
def default_with_version (dflt : T) (version : Nat) : Versioned T :=
  with_version dflt version

/-- Writing a value through the mutable borrow returned by as_mut_impl
replaces self.0 only; none models a caller that discards the borrow
without writing. -/
def writeThrough (c : Versioned T) : Option T → Versioned T
  | none => c
  | some x => ⟨x, c.version⟩

end Versioned

/-- One API operation performed on a cell.  The mutable-access
operations carry the (optional) value the caller writes through the
granted borrow before releasing it. -/
inductive Op (T : Type)
  | versionCall : Op T
  | asRefCall : Op T
  | derefCall : Op T
  | asMutCall (write : Option T) : Op T
  | derefMutCall (write : Option T) : Op T

/-- Whether an operation is a mutable-access operation (as_mut or
deref_mut). -/
def Op.isMut {T : Type} : Op T → Bool
  | .asMutCall _ => true
  | .derefMutCall _ => true
  | _ => false

/-- Effect of one API operation on the cell state: read-only operations
return borrows of self and leave the state as the source functions do;
mutable-access operations thread the state returned by the source
function and then apply the optional write through the granted borrow.
none is the overflow panic. -/
def applyOp {T : Type} (c : Versioned T) : Op T → Option (Versioned T)
  | .versionCall => some c
  | .asRefCall => some (Versioned.as_ref c).2
  | .derefCall => some (Versioned.deref c).2
  | .asMutCall w => (Versioned.as_mut c).map (fun rc => Versioned.writeThrough rc.2 w)
  | .derefMutCall w => (Versioned.deref_mut c).map (fun rc => Versioned.writeThrough rc.2 w)

/-- Sequential effect of a list of API operations on a cell. -/
def applyOps {T : Type} (c : Versioned T) : List (Op T) → Option (Versioned T)
  | [] => some c
  | op :: ops => (applyOp c op).bind (fun c2 => applyOps c2 ops)

/-- Helper: a successful single operation either is read-only and
leaves the cell unchanged, or is mutable and increments the version by
exactly one. -/
theorem applyOp_some_cases {T : Type} {c c' : Versioned T} {op : Op T}
    (h : applyOp c op = some c') :
    (op.isMut = false ∧ c' = c) ∨ (op.isMut = true ∧ c'.version = c.version + 1) := by
  cases op with
  | versionCall =>
      left
      refine ⟨rfl, ?_⟩
      simpa [applyOp] using h.symm
  | asRefCall =>
      left
      refine ⟨rfl, ?_⟩
      simpa [applyOp, Versioned.as_ref, Versioned.as_ref_impl] using h.symm
  | derefCall =>
      left
      refine ⟨rfl, ?_⟩
      simpa [applyOp, Versioned.deref, Versioned.as_ref_impl] using h.symm
  | asMutCall w =>
      right
      refine ⟨rfl, ?_⟩
      unfold applyOp Versioned.as_mut Versioned.as_mut_impl usizeCheckedAdd at h
      by_cases hle : c.version + 1 ≤ USIZE_MAX
      · rw [if_pos hle] at h
        cases w <;> simp [Versioned.writeThrough] at h <;> simp [← h]
      · rw [if_neg hle] at h
        simp at h
  | derefMutCall w =>
      right
      refine ⟨rfl, ?_⟩
      unfold applyOp Versioned.deref_mut Versioned.as_mut_impl usizeCheckedAdd at h
      by_cases hle : c.version + 1 ≤ USIZE_MAX
      · rw [if_pos hle] at h
        cases w <;> simp [Versioned.writeThrough] at h <;> simp [← h]
      · rw [if_neg hle] at h
        simp at h

/-- Helper: a read-only operation succeeds and leaves the cell state
completely unchanged. -/
theorem applyOp_read_eq {T : Type} (c : Versioned T) (op : Op T)
    (h : op.isMut = false) : applyOp c op = some c := by
  cases op with
  | versionCall => rfl
  | asRefCall => rfl
  | derefCall => rfl
  | asMutCall w => simp [Op.isMut] at h
  | derefMutCall w => simp [Op.isMut] at h

/-- Helper: splitting a successful run of a sequence at its head. -/
theorem applyOps_cons_some {T : Type} {c c' : Versioned T} {op : Op T}
    {ops : List (Op T)} (h : applyOps c (op :: ops) = some c') :
    ∃ c2, applyOp c op = some c2 ∧ applyOps c2 ops = some c' := by
  unfold applyOps at h
  cases hop : applyOp c op with
  | none => rw [hop] at h; simp at h
  | some c2 =>
      rw [hop] at h
      simp only [Option.some_bind] at h
      exact ⟨c2, rfl, h⟩

/-- C7: a cell constructed by new(v) has version 0 (INITIAL_VERSION)
immediately after construction and wraps exactly v; the construction is
defined for every type T with no constraints. -/
theorem new_version_zero (T : Type) (v : T) :
    (Versioned.new v).version = 0 ∧ (Versioned.new v).value = v :=
  ⟨rfl, rfl⟩

/-- C8: a cell constructed by with_version(v, n) has version exactly n
immediately after construction, and wraps exactly v. -/
theorem with_version_sets_version (T : Type) (v : T) (n : Nat) :
    (Versioned.with_version v n).version = n ∧
    (Versioned.with_version v n).value = v :=
  ⟨rfl, rfl⟩

/-- C9: default construction wraps the default value of T with version
0, and default_with_version(n) wraps the default value of T with
version n. -/
theorem default_constructions (T : Type) (dflt : T) (n : Nat) :
    (Versioned.defaultCell dflt).value = dflt ∧
    (Versioned.defaultCell dflt).version = 0 ∧
    (Versioned.default_with_version dflt n).value = dflt ∧
    (Versioned.default_with_version dflt n).version = n :=
  ⟨rfl, rfl, rfl, rfl⟩

/-- C5: for every cell, including one whose version is positive,
clone yields a new cell whose version is 0 (INITIAL_VERSION, not the
source version) and whose value is the clone of the source value. -/
theorem clone_resets_version (T : Type) (cloneT : T → T) (c : Versioned T) :
    (Versioned.clone cloneT c).version = 0 ∧
    (Versioned.clone cloneT c).value = cloneT c.value :=
  ⟨rfl, rfl⟩

/-- C6 counterexample: copying (Rust Copy, a bitwise duplicate) a cell
with version 5 yields a cell with version 5, not 0, so copy does not
behave identically to clone, which does reset the version to 0. -/
theorem copy_keeps_version_counterexample :
    (Versioned.copy (Versioned.with_version (7 : Nat) 5)).version = 5 ∧
    ¬ (Versioned.copy (Versioned.with_version (7 : Nat) 5)).version = 0 ∧
    (Versioned.clone id (Versioned.with_version (7 : Nat) 5)).version = 0 := by
  refine ⟨rfl, ?_, rfl⟩
  decide

/-- C6 amended: for trivially copyable T, copy-construction duplicates
the cell bitwise, preserving both the wrapped value and the version of
the source; unlike clone, it does not reset the version to 0. -/
theorem copy_preserves_cell (T : Type) (c : Versioned T) :
    Versioned.copy c = c ∧
    (Versioned.copy c).version = c.version ∧
    (Versioned.copy c).value = c.value :=
  ⟨rfl, rfl, rfl⟩

/-- Helper: the checked increment of the version fails exactly at
USIZE_MAX. -/
theorem usizeCheckedAdd_max_one : usizeCheckedAdd USIZE_MAX 1 = none := by
  unfold usizeCheckedAdd USIZE_MAX USIZE_BITS
  decide

/-- Helper: as_mut_impl propagates the overflow panic of the checked
increment of the version. -/
theorem as_mut_impl_of_checked_none {T : Type} (c : Versioned T)
    (h : usizeCheckedAdd c.version 1 = none) :
    Versioned.as_mut_impl c = none := by
  unfold Versioned.as_mut_impl
  rw [h]

/-- C3: requesting mutable access (as_mut or deref_mut, both through
as_mut_impl) on a cell whose version is the maximum representable
Version value is the fatal overflow panic (modelled by none): no
successor cell is produced, in particular none with a wrapped-around
version 0. -/
theorem mut_access_at_max_version_panics (T : Type) (v : T) :
    Versioned.as_mut_impl (Versioned.with_version v USIZE_MAX) = none ∧
    Versioned.as_mut (Versioned.with_version v USIZE_MAX) = none ∧
    Versioned.deref_mut (Versioned.with_version v USIZE_MAX) = none := by
  have h : Versioned.as_mut_impl (Versioned.with_version v USIZE_MAX)
      = (none : Option (T × Versioned T)) :=
    as_mut_impl_of_checked_none _ usizeCheckedAdd_max_one
  exact ⟨h, h, h⟩

/-- C10: a granted mutable access by itself (as_mut or deref_mut,
before any write through the returned borrow) leaves the wrapped value
unchanged: the returned borrow denotes the old value, the successor
cell holds the old value, and only the version field changed, by
exactly one. -/
theorem mut_access_preserves_value (T : Type) (c : Versioned T)
    (r : T) (c' : Versioned T)
    (h : Versioned.as_mut c = some (r, c') ∨
      Versioned.deref_mut c = some (r, c')) :
    c'.value = c.value ∧ r = c.value ∧ c'.version = c.version + 1 := by
  have hm : Versioned.as_mut_impl c = some (r, c') := by
    cases h with
    | inl h => exact h
    | inr h => exact h
  unfold Versioned.as_mut_impl usizeCheckedAdd at hm
  by_cases hle : c.version + 1 ≤ USIZE_MAX
  · rw [if_pos hle] at hm
    simp only [Option.some_inj, Prod.mk.injEq] at hm
    obtain ⟨h1, h2⟩ := hm
    subst h1
    exact ⟨by rw [← h2], rfl, by rw [← h2]⟩
  · rw [if_neg hle] at hm
    simp at hm

/-- C10 witness: as_mut on a fresh cell wrapping 42 grants the old
value 42 and steps the cell to version 1 with the value untouched. -/
theorem mut_access_preserves_value_witness :
    (Versioned.with_version (42 : Nat) 1).value = (Versioned.new (42 : Nat)).value ∧
    (42 : Nat) = (Versioned.new (42 : Nat)).value ∧
    (Versioned.with_version (42 : Nat) 1).version = (Versioned.new (42 : Nat)).version + 1 :=
  mut_access_preserves_value Nat (Versioned.new 42) 42
    (Versioned.with_version 42 1) (Or.inl (by decide))

/-- C1: performing any sequence of k mutable-access operations (each
either as_mut or deref_mut, each optionally followed by a write through
the granted borrow) that completes without overflow increases the
version by exactly k; moreover each single grant has already
incremented the version by 1 in the state paired with the returned
borrow, before the caller can inspect or discard it. -/
theorem mut_ops_add_length :
    (∀ (T : Type) (c : Versioned T) (r : T) (c' : Versioned T),
        Versioned.as_mut_impl c = some (r, c') →
        c'.version = c.version + 1) ∧
    (∀ (T : Type) (ops : List (Op T)) (c c' : Versioned T),
        (∀ op ∈ ops, op.isMut = true) →
        applyOps c ops = some c' →
        c'.version = c.version + ops.length) := by
  constructor
  · intro T c r c' h
    unfold Versioned.as_mut_impl usizeCheckedAdd at h
    by_cases hle : c.version + 1 ≤ USIZE_MAX
    · rw [if_pos hle] at h
      simp only [Option.some_inj, Prod.mk.injEq] at h
      rw [← h.2]
    · rw [if_neg hle] at h
      simp at h
  · intro T ops
    induction ops with
    | nil =>
        intro c c' _ h
        unfold applyOps at h
        simp only [Option.some_inj] at h
        rw [← h]
        simp
    | cons op ops ih =>
        intro c c' hmut h
        obtain ⟨c2, hop, hrest⟩ := applyOps_cons_some h
        have hopmut : op.isMut = true := hmut op (List.mem_cons_self op ops)
        have hstep := applyOp_some_cases hop
        rcases hstep with ⟨hfalse, _⟩ | ⟨_, hver⟩
        · rw [hopmut] at hfalse
          exact absurd hfalse (by simp)
        · have htail := ih c2 c'
            (fun o ho => hmut o (List.mem_cons_of_mem op ho)) hrest
          rw [htail, hver]
          simp [List.length_cons]
          omega

/-- C1 witness: two mutable accesses on a fresh cell wrapping 0, the
first writing 5 through the granted borrow and the second discarding
it, raise the version from 0 to 2. -/
theorem mut_ops_add_length_witness :
    (Versioned.with_version (5 : Nat) 2).version =
      (Versioned.new (0 : Nat)).version +
        ([Op.asMutCall (some 5), Op.derefMutCall none] : List (Op Nat)).length :=
  mut_ops_add_length.2 Nat [Op.asMutCall (some 5), Op.derefMutCall none]
    (Versioned.new 0) (Versioned.with_version 5 2) (by decide) (by decide)

/-- C2: the version counter is monotonically non-decreasing under every
operation of the interface (version, as_ref, deref, as_mut, deref_mut):
every single successful operation yields a version at least as large as
before, read-only operations leave the cell unchanged, mutable-access
operations increment the version by exactly one, and over any
successful sequence of operations the final version is at least the
initial one. -/
theorem version_monotone :
    (∀ (T : Type) (c : Versioned T) (op : Op T) (c' : Versioned T),
        applyOp c op = some c' →
        c.version ≤ c'.version ∧
        (op.isMut = false → c' = c) ∧
        (op.isMut = true → c'.version = c.version + 1)) ∧
    (∀ (T : Type) (ops : List (Op T)) (c c' : Versioned T),
        applyOps c ops = some c' → c.version ≤ c'.version) := by
  have single : ∀ (T : Type) (c : Versioned T) (op : Op T) (c' : Versioned T),
      applyOp c op = some c' →
      c.version ≤ c'.version ∧
      (op.isMut = false → c' = c) ∧
      (op.isMut = true → c'.version = c.version + 1) := by
    intro T c op c' h
    rcases applyOp_some_cases h with ⟨hread, heq⟩ | ⟨hmut, hver⟩
    · subst heq
      refine ⟨le_refl _, fun _ => rfl, fun htrue => ?_⟩
      rw [hread] at htrue
      exact absurd htrue (by simp)
    · refine ⟨by omega, fun hfalse => ?_, fun _ => hver⟩
      rw [hmut] at hfalse
      exact absurd hfalse (by simp)
  refine ⟨single, ?_⟩
  intro T ops
  induction ops with
  | nil =>
      intro c c' h
      unfold applyOps at h
      simp only [Option.some_inj] at h
      rw [← h]
  | cons op ops ih =>
      intro c c' h
      obtain ⟨c2, hop, hrest⟩ := applyOps_cons_some h
      exact le_trans (single T c op c2 hop).1 (ih c2 c' hrest)

/-- C2 witness: a concrete successful sequence, one read then one
mutable access on a fresh cell wrapping 3, never decreases the version:
0 is at most 1. -/
theorem version_monotone_witness :
    (Versioned.new (3 : Nat)).version ≤ (Versioned.with_version (3 : Nat) 1).version :=
  version_monotone.2 Nat [Op.asRefCall, Op.asMutCall none]
    (Versioned.new 3) (Versioned.with_version 3 1) (by decide)

/-- C4: any sequence of read-only accesses (version, as_ref, deref)
leaves the cell entirely unchanged, version and wrapped value included,
and each read-only access hands back exactly the wrapped value; the
Deref-coercion read path never increments the counter. -/
theorem read_ops_leave_cell_unchanged :
    (∀ (T : Type) (ops : List (Op T)) (c : Versioned T),
        (∀ op ∈ ops, op.isMut = false) →
        applyOps c ops = some c) ∧
    (∀ (T : Type) (c : Versioned T),
        Versioned.as_ref c = (c.value, c) ∧
        Versioned.deref c = (c.value, c) ∧
        Versioned.as_ref_impl c = (c.value, c)) := by
  constructor
  · intro T ops
    induction ops with
    | nil => intro c _; rfl
    | cons op ops ih =>
        intro c hread
        have hop : applyOp c op = some c :=
          applyOp_read_eq c op (hread op (List.mem_cons_self op ops))
        have hrest : applyOps c ops = some c :=
          ih c (fun o ho => hread o (List.mem_cons_of_mem op ho))
        unfold applyOps
        rw [hop, Option.some_bind, hrest]
  · intro T c
    exact ⟨rfl, rfl, rfl⟩

/-- C4 witness: a concrete run of three read-only accesses on a fresh
cell wrapping 9 returns the cell in its exact starting state. -/
theorem read_ops_leave_cell_unchanged_witness :
    applyOps (Versioned.new (9 : Nat))
      [Op.versionCall, Op.asRefCall, Op.derefCall] = some (Versioned.new (9 : Nat)) :=
  read_ops_leave_cell_unchanged.1 Nat
    [Op.versionCall, Op.asRefCall, Op.derefCall] (Versioned.new 9) (by decide)

end VersionedCrate
